import Mathlib

/-!
Verification of the request-admission and resiliency layer of
`litellm-retry-wrapper` (src/litellm_retry_wrapper/litellm_caller.py),
shallowly embedded in Lean.

Time is modelled as `Int` (seconds); `datetime.now()` values are supplied
explicitly as arguments or as a clock list, so that every run of the code is a
pure function of the supplied instants.
-/

namespace LitellmCaller

/-! ## SlidingWindowRateLimiter -/

/-- State of `SlidingWindowRateLimiter`: capacity, window length, and the deque
of grant timestamps (front = oldest). The mutex only serialises calls and has
no sequential content, so it is not modelled. -/
structure SlidingWindowRateLimiter where
  max_requests : Nat
  window_seconds : Int
  requests : List Int
deriving Repr, DecidableEq

/-- `_clean_old_requests`: pop from the front while the oldest entry is
strictly older than the window (`now - requests[0] > timedelta(window_seconds)`). -/
def SlidingWindowRateLimiter.clean_old_requests (l : SlidingWindowRateLimiter)
    (now : Int) : SlidingWindowRateLimiter :=
  { l with requests := l.requests.dropWhile (fun ts => decide (now - ts > l.window_seconds)) }

/-- `try_acquire`: clean, then grant (recording `now`) iff the remaining count
is below capacity. Returns the grant decision and the updated state. -/
def SlidingWindowRateLimiter.try_acquire (l : SlidingWindowRateLimiter)
    (now : Int) : Bool × SlidingWindowRateLimiter :=
  let l' := l.clean_old_requests now
  if l'.requests.length < l.max_requests then
    (true, { l' with requests := l'.requests ++ [now] })
  else
    (false, l')

/-- Run a sequence of `try_acquire` calls at the given instants; returns the
final limiter state and the timestamps of the granted calls, in order. -/
def runAcquires : SlidingWindowRateLimiter → List Int → SlidingWindowRateLimiter × List Int
  | l, [] => (l, [])
  | l, t :: ts =>
    let r := l.try_acquire t
    let rest := runAcquires r.2 ts
    (rest.1, (if r.1 then [t] else []) ++ rest.2)

/-- The boolean results of a sequence of `try_acquire` calls at the given instants. -/
def runAcquiresResults : SlidingWindowRateLimiter → List Int → List Bool
  | _, [] => []
  | l, t :: ts =>
    let r := l.try_acquire t
    r.1 :: runAcquiresResults r.2 ts

/-- Membership of a grant timestamp `g` in the trailing window `[t - w, t]`. -/
def inWindow (w t g : Int) : Bool := decide (t - w ≤ g ∧ g ≤ t)



theorem clean_max_requests (l : SlidingWindowRateLimiter) (now : Int) :
    (l.clean_old_requests now).max_requests = l.max_requests := rfl

theorem clean_window_seconds (l : SlidingWindowRateLimiter) (now : Int) :
    (l.clean_old_requests now).window_seconds = l.window_seconds := rfl

theorem clean_requests (l : SlidingWindowRateLimiter) (now : Int) :
    (l.clean_old_requests now).requests
      = l.requests.dropWhile (fun ts => decide (now - ts > l.window_seconds)) := rfl

theorem try_acquire_pos (l : SlidingWindowRateLimiter) (now : Int)
    (h : (l.clean_old_requests now).requests.length < l.max_requests) :
    l.try_acquire now
      = (true, { l.clean_old_requests now with
                  requests := (l.clean_old_requests now).requests ++ [now] }) := by
  simp [SlidingWindowRateLimiter.try_acquire, h]

theorem try_acquire_neg (l : SlidingWindowRateLimiter) (now : Int)
    (h : ¬ (l.clean_old_requests now).requests.length < l.max_requests) :
    l.try_acquire now = (false, l.clean_old_requests now) := by
  simp [SlidingWindowRateLimiter.try_acquire, h]

theorem runAcquires_cons (l : SlidingWindowRateLimiter) (t : Int) (ts : List Int) :
    runAcquires l (t :: ts)
      = ((runAcquires (l.try_acquire t).2 ts).1,
         (if (l.try_acquire t).1 then [t] else []) ++ (runAcquires (l.try_acquire t).2 ts).2) := rfl

/-- On a nondecreasing list, popping old entries from the front removes exactly
the entries that are strictly older than the window. -/
theorem dropWhile_old_eq_filter (now w : Int) (l : List Int)
    (hs : l.Pairwise (· ≤ ·)) :
    l.dropWhile (fun ts => decide (now - ts > w))
      = l.filter (fun ts => decide (now - ts ≤ w)) := by
  induction l with
  | nil => rfl
  | cons a l ih =>
    rw [List.pairwise_cons] at hs
    by_cases ha : now - a > w
    · have h2 : ¬ (now - a ≤ w) := by omega
      simp only [List.dropWhile_cons, List.filter_cons, decide_eq_true_eq]
      rw [if_pos ha, if_neg h2]
      exact ih hs.2
    · have hle : now - a ≤ w := by omega
      simp only [List.dropWhile_cons, List.filter_cons, decide_eq_true_eq]
      rw [if_neg ha, if_pos hle]
      have : l.filter (fun ts => decide (now - ts ≤ w)) = l := by
        apply List.filter_eq_self.mpr
        intro b hb
        have := hs.1 b hb
        simp only [decide_eq_true_eq]
        omega
      rw [this]

/-- Main invariant for C1: processing a nondecreasing sequence of further call
instants preserves the bound "at most `cap` grants in any trailing window",
given that the deque holds exactly the past grants still inside the window of
the previous instant `c`. -/
theorem runAcquires_countP_le (w : Int) (cap : Nat) (hw : 0 ≤ w) :
    ∀ (times : List Int) (l : SlidingWindowRateLimiter) (gs : List Int) (c : Int),
      l.max_requests = cap → l.window_seconds = w →
      l.requests = gs.filter (fun g => decide (c - g ≤ w)) →
      gs.Pairwise (· ≤ ·) →
      (∀ g ∈ gs, g ≤ c) →
      times.Pairwise (· ≤ ·) →
      (∀ x ∈ times, c ≤ x) →
      (∀ t' : Int, gs.countP (inWindow w t') ≤ cap) →
      ∀ t : Int, (gs ++ (runAcquires l times).2).countP (inWindow w t) ≤ cap := by
  intro times
  induction times with
  | nil =>
    intro l gs c _ _ _ _ _ _ _ H t
    simpa [runAcquires] using H t
  | cons x ts ih =>
    intro l gs c hcap hwin hreq hgs hgsle htimes hge H t
    rw [List.pairwise_cons] at htimes
    have hcx : c ≤ x := hge x (List.mem_cons_self x ts)
    -- the cleaned deque holds exactly the past grants inside the window of x
    have hclean : (l.clean_old_requests x).requests
        = gs.filter (fun g => decide (x - g ≤ w)) := by
      rw [clean_requests, hwin, hreq,
          dropWhile_old_eq_filter x w _ (hgs.filter _), List.filter_filter]
      apply List.filter_congr
      intro g _
      by_cases hg : x - g ≤ w
      · have : c - g ≤ w := by omega
        simp [hg, this]
      · simp [hg]
    by_cases hlen : (l.clean_old_requests x).requests.length < l.max_requests
    · -- granted at x
      simp only [runAcquires_cons, try_acquire_pos l x hlen, if_true]
      have hcnt : gs.countP (fun g => decide (x - g ≤ w)) < cap := by
        have := hlen
        rw [hclean, hcap] at this
        simpa [List.countP_eq_length_filter] using this
      have step := ih ({ l.clean_old_requests x with
            requests := (l.clean_old_requests x).requests ++ [x] }) (gs ++ [x]) x
        (by simpa [clean_max_requests] using hcap)
        (by simpa [clean_window_seconds] using hwin)
        (by
          simp only [hclean, List.filter_append]
          congr 1
          simp [hw])
        (by
          rw [List.pairwise_append]
          refine ⟨hgs, List.pairwise_singleton _ _, ?_⟩
          intro a ha b hb
          rw [List.mem_singleton] at hb
          subst hb
          exact le_trans (hgsle a ha) hcx)
        (by
          intro g hg
          rcases List.mem_append.mp hg with h | h
          · exact le_trans (hgsle g h) hcx
          · rw [List.mem_singleton] at h; omega)
        htimes.2
        (by intro y hy; exact htimes.1 y hy)
        (by
          intro t'
          rw [List.countP_append]
          by_cases hx : inWindow w t' x = true
          · have h1 : gs.countP (inWindow w t') ≤ gs.countP (fun g => decide (x - g ≤ w)) := by
              apply List.countP_mono_left
              intro g _ hgwin
              simp only [inWindow, decide_eq_true_eq] at hgwin hx ⊢
              omega
            have h2 : List.countP (inWindow w t') [x] ≤ 1 := by
              simp [List.countP_cons, hx]
            omega
          · have h2 : List.countP (inWindow w t') [x] = 0 := by
              simp only [Bool.not_eq_true] at hx
              simp [List.countP_cons, hx]
            have := H t'
            omega)
        t
      rw [← List.append_assoc]
      exact step
    · -- denied at x
      simp only [runAcquires_cons, try_acquire_neg l x hlen, if_false, List.nil_append]
      exact ih (l.clean_old_requests x) gs x
        (by simpa [clean_max_requests] using hcap)
        (by simpa [clean_window_seconds] using hwin)
        hclean hgs
        (fun g hg => le_trans (hgsle g hg) hcx)
        htimes.2
        (fun y hy => htimes.1 y hy)
        H t

/-- Claim C1: for every nondecreasing sequence of `try_acquire` call instants on
a `SlidingWindowRateLimiter` constructed with positive capacity, the number of
calls that returned true whose grant timestamps fall within any trailing window
`[t - windowDuration, t]` never exceeds the capacity. -/
theorem c1_trailing_window_grants_le_capacity (cap : Nat) (w : Int)
    (times : List Int) (t : Int) (_hcap : 0 < cap)
    (hsorted : times.Pairwise (· ≤ ·)) :
    ((runAcquires ⟨cap, w, []⟩ times).2).countP (inWindow w t) ≤ cap := by
  rcases le_or_lt 0 w with hw | hw
  · cases times with
    | nil => simp [runAcquires]
    | cons x ts =>
      rw [List.pairwise_cons] at hsorted
      have step := runAcquires_countP_le w cap hw (x :: ts) ⟨cap, w, []⟩ [] x
        rfl rfl rfl List.Pairwise.nil (by simp)
        (by rw [List.pairwise_cons]; exact hsorted)
        (by
          intro y hy
          rcases List.mem_cons.mp hy with h | h
          · omega
          · exact hsorted.1 y h)
        (by intro t'; simp) t
      simpa using step
  · -- degenerate negative window: the trailing window [t - w, t] is empty
    have hempty : ∀ g ∈ (runAcquires ⟨cap, w, []⟩ times).2, ¬ inWindow w t g = true := by
      intro g _
      simp only [inWindow, decide_eq_true_eq, not_and]
      intro h1 h2
      omega
    rw [List.countP_eq_zero.mpr hempty]
    omega

theorem c1_trailing_window_grants_le_capacity_witness :
    0 < 2 ∧ ([0, 1, 1, 2] : List Int).Pairwise (· ≤ ·) ∧
      ((runAcquires ⟨2, (2 : Int), []⟩ [0, 1, 1, 2]).2).countP (inWindow 2 2) ≤ 2 :=
  ⟨by decide, by decide,
    c1_trailing_window_grants_le_capacity 2 2 [0, 1, 1, 2] 2 (by decide) (by decide)⟩

/-- Claim C5 counterexample: with capacity 2 and window 2, `try_acquire` at
instants 0, 1, 1, 2 does NOT produce the results `[true, true, false, true]`
asserted by the claim: at t = 2 the age of the t = 0 grant is exactly the
window length, pruning requires age strictly greater than the window, so the
fourth call is denied. -/
theorem c5_exact_boundary_counterexample :
    runAcquiresResults ⟨2, 2, []⟩ [0, 1, 1, 2] ≠ [true, true, false, true] := by
  decide

/-- Claim C5 (amended): the limiter is sliding-window, not fixed-bucket: with
capacity 2 and windowDuration 2, `try_acquire` at t = 0 and t = 1 both return
true, a further `try_acquire` at t = 1 returns false, a `try_acquire` at
exactly t = 2 still returns false (a grant expires only strictly after
windowDuration has elapsed, since pruning uses a strict comparison), and a
`try_acquire` at t = 3 returns true because the t = 0 grant has expired while
the t = 1 grant is still within the window. -/
theorem c5_sliding_window_behaviour :
    runAcquiresResults ⟨2, 2, []⟩ [0, 1, 1, 2, 3] = [true, true, false, false, true] := by
  decide

/-- The deque never holds more than `max_requests` entries after any
`try_acquire`, provided it did not before. -/
theorem try_acquire_length_le (l : SlidingWindowRateLimiter) (now : Int)
    (h : l.requests.length ≤ l.max_requests) :
    (l.try_acquire now).2.requests.length ≤ (l.try_acquire now).2.max_requests := by
  have hdrop : (l.clean_old_requests now).requests.length ≤ l.requests.length := by
    rw [clean_requests]
    exact (List.dropWhile_suffix _).length_le
  by_cases hlen : (l.clean_old_requests now).requests.length < l.max_requests
  · rw [try_acquire_pos l now hlen]
    show ((l.clean_old_requests now).requests ++ [now]).length ≤ l.max_requests
    rw [List.length_append, List.length_singleton]
    omega
  · rw [try_acquire_neg l now hlen]
    show (l.clean_old_requests now).requests.length ≤ l.max_requests
    omega

theorem try_acquire_max_requests (l : SlidingWindowRateLimiter) (now : Int) :
    (l.try_acquire now).2.max_requests = l.max_requests := by
  by_cases hlen : (l.clean_old_requests now).requests.length < l.max_requests
  · rw [try_acquire_pos l now hlen]
    rfl
  · rw [try_acquire_neg l now hlen]
    rfl

/-- States reached by running any call sequence from a fresh limiter keep the
deque length bounded by the capacity. -/
theorem runAcquires_length_le :
    ∀ (times : List Int) (l : SlidingWindowRateLimiter),
      l.requests.length ≤ l.max_requests →
      (runAcquires l times).1.requests.length ≤ (runAcquires l times).1.max_requests
  | [], l, h => h
  | t :: ts, l, h => by
    rw [runAcquires_cons]
    exact runAcquires_length_le ts (l.try_acquire t).2 (try_acquire_length_le l t h)

/-- Claim C9: a `try_acquire` call that is denied does not mutate the
admission log — stated for every state reachable from a fresh limiter. -/
theorem c9_denied_try_acquire_no_mutation (cap : Nat) (w : Int)
    (times : List Int) (now : Int)
    (hdenied : ((runAcquires ⟨cap, w, []⟩ times).1.try_acquire now).1 = false) :
    ((runAcquires ⟨cap, w, []⟩ times).1.try_acquire now).2.requests
      = (runAcquires ⟨cap, w, []⟩ times).1.requests := by
  set l := (runAcquires ⟨cap, w, []⟩ times).1 with hl
  have hbound : l.requests.length ≤ l.max_requests :=
    runAcquires_length_le times ⟨cap, w, []⟩ (by simp)
  by_cases hlen : (l.clean_old_requests now).requests.length < l.max_requests
  · rw [try_acquire_pos l now hlen] at hdenied
    exact absurd hdenied (by simp)
  · rw [try_acquire_neg l now hlen]
    have hdrop : (l.clean_old_requests now).requests.length ≤ l.requests.length := by
      rw [clean_requests]
      exact (List.dropWhile_suffix _).length_le
    have heq : (l.clean_old_requests now).requests.length = l.requests.length := by
      omega
    rw [clean_requests] at heq ⊢
    exact (List.dropWhile_suffix _).eq_of_length heq

theorem c9_denied_try_acquire_no_mutation_witness :
    ((runAcquires ⟨1, (10 : Int), []⟩ [0]).1.try_acquire 1).1 = false ∧
      ((runAcquires ⟨1, (10 : Int), []⟩ [0]).1.try_acquire 1).2.requests
        = (runAcquires ⟨1, (10 : Int), []⟩ [0]).1.requests :=
  ⟨by decide, c9_denied_try_acquire_no_mutation 1 10 [0] 1 (by decide)⟩


/-! ## Model budget resolution (LiteLLMCaller.DEFAULT_RATE_LIMITS and __init__) -/

/-- Python `str.startswith`-style check used to build substring containment:
does `hay` start with `needle`? -/
def strStarts : List Char → List Char → Bool
  | [], _ => true
  | _ :: _, [] => false
  | a :: as, b :: bs => a == b && strStarts as bs

/-- Python `needle in hay` substring containment on strings. -/
def strContains (needle : List Char) : List Char → Bool
  | [] => needle.isEmpty
  | c :: t => strStarts needle (c :: t) || strContains needle t

/-- Python `model_name.split('/')[-1]`: the suffix after the last separator. -/
def lastSegment (s : List Char) : List Char :=
  s.foldl (fun acc c => if c = '/' then [] else acc ++ [c]) []

/-- `LiteLLMCaller.DEFAULT_RATE_LIMITS`, in source (dict-insertion) order. -/
def DEFAULT_RATE_LIMITS : List (String × Nat) :=
  [("gpt-3.5-turbo", 500), ("gpt-4", 200), ("gemini-pro", 600),
   ("claude-2", 400), ("gemini/gemini-2.0-flash", 2000)]

/-- The `for model_prefix, limits in DEFAULT_RATE_LIMITS.items()` loop body:
first key that is a substring of `base` wins, in table-iteration order. -/
def firstSubstringMatch (base : List Char) : List (String × Nat) → Option Nat
  | [] => none
  | (k, v) :: rest =>
    if strContains k.toList base then some v else firstSubstringMatch base rest

/-- Budget resolution from `LiteLLMCaller.__init__` when `rpm is None`: exact
dict lookup on the full identifier; else the substring loop over the suffix
after the last separator; then `rpm = rpm or 100` (Python `or` also coalesces
a falsy 0 from the loop into 100). -/
def resolveRpm (model_name : String) : Nat :=
  match DEFAULT_RATE_LIMITS.find? (fun p => p.1 == model_name) with
  | some p => p.2
  | none =>
    match firstSubstringMatch (lastSegment model_name.toList) DEFAULT_RATE_LIMITS with
    | some v => if v = 0 then 100 else v
    | none => 100

/-- Modelled from the spec's words (resolution rule, for comparison with
`resolveRpm`): exact match on the full identifier returns its table value;
otherwise the suffix after the last separator is tested for containing each
table key, the first match in table-iteration order winning; otherwise the
conservative fallback 100. -/
def resolveRpmSpec (model_name : String) : Nat :=
  match DEFAULT_RATE_LIMITS.find? (fun p => p.1 == model_name) with
  | some p => p.2
  | none =>
    match firstSubstringMatch (lastSegment model_name.toList) DEFAULT_RATE_LIMITS with
    | some v => v
    | none => 100

theorem firstSubstringMatch_mem (base : List Char) :
    ∀ (table : List (String × Nat)) (v : Nat),
      firstSubstringMatch base table = some v → v ∈ table.map Prod.snd
  | [], v, h => by simp [firstSubstringMatch] at h
  | (k, u) :: rest, v, h => by
    rw [firstSubstringMatch] at h
    by_cases hc : strContains k.toList base = true
    · rw [if_pos hc] at h
      simp only [Option.some_inj] at h
      simp [← h]
    · rw [if_neg hc] at h
      have := firstSubstringMatch_mem base rest v h
      simp [this]

/-- Claim C3: budget resolution is the pure function described by the spec
(exact table match; else first substring match of a table key against the
suffix after the last separator, in table order; else fallback 100), and in
particular resolves the three sample identifiers as claimed. -/
theorem c3_budget_resolution :
    (∀ m : String, resolveRpm m = resolveRpmSpec m) ∧
    resolveRpm "gemini/gemini-2.0-flash" = 2000 ∧
    resolveRpm "gpt-3.5-turbo" = 500 ∧
    resolveRpm "totally-unknown-model" = 100 := by
  refine ⟨?_, by decide, by decide, by decide⟩
  intro m
  rw [resolveRpm, resolveRpmSpec]
  cases DEFAULT_RATE_LIMITS.find? (fun p => p.1 == m) with
  | some p => rfl
  | none =>
    cases hfm : firstSubstringMatch (lastSegment m.toList) DEFAULT_RATE_LIMITS with
    | none => rfl
    | some v =>
      have hv : v ∈ DEFAULT_RATE_LIMITS.map Prod.snd :=
        firstSubstringMatch_mem _ DEFAULT_RATE_LIMITS v hfm
      have : v ≠ 0 := by
        intro h0
        subst h0
        exact absurd hv (by decide)
      simp [this]

/-! ## Retry wrapper (`@tenacity.retry`-decorated `_make_completion_with_retry`)

The decorator at litellm_caller.py lines 102-107 is applied with literal
arguments: `wait=tenacity.wait_exponential(multiplier=1, min=4, max=10)`,
`stop=tenacity.stop_after_attempt(3)` and `retry=retry_if_exception_type(Exception)`.
The constructor fields `max_retries`, `min_retry_wait` and `max_retry_wait`
are stored on the instance but are not referenced by the decorator, so the
embedded attempt limit and wait bounds below do not depend on them.

An attempt's outcome is abstracted as `Except E V`: the external
`completion(...)` call either returns a value or raises. -/

/-- Constructor-time configuration of `LiteLLMCaller` relevant to retries. -/
structure RetryConfig where
  max_retries : Nat
  min_retry_wait : Nat
  max_retry_wait : Nat
deriving Repr, DecidableEq

/-- What the caller of `complete` observes: the success value verbatim, or a
`tenacity.RetryError` wrapping the last attempt's underlying failure
(re-raised unchanged by both except blocks). -/
inductive CallOutcome (E V : Type) where
  | success : V → CallOutcome E V
  | retriesExhausted : E → CallOutcome E V
deriving DecidableEq

/-- `tenacity.wait_exponential(multiplier, min, max)` evaluated after the
failure of attempt number `k` (1-based):
`max(max(0, min), min(multiplier * 2^(k-1), max))`. -/
def waitExponential (multiplier minW maxW : Nat) (k : Nat) : Nat :=
  max (max 0 minW) (min (multiplier * 2 ^ (k - 1)) maxW)

/-- The sleep tenacity performs between the failure of attempt `k` and attempt
`k + 1`, as configured in the decorator. The literals 1, 4, 10 come from the
decorator call; the configuration's wait bounds are not consulted there. -/
def retrySleep (_cfg : RetryConfig) (k : Nat) : Nat :=
  waitExponential 1 4 10 k

/-- The attempt limit tenacity enforces: the literal 3 in
`stop_after_attempt(3)`; the configuration's `max_retries` is not consulted. -/
def stopAttempts (_cfg : RetryConfig) : Nat := 3

/-- The tenacity loop starting at attempt number `k` (1-based) with `n` more
attempts allowed after the current one. Returns the observed outcome, the
number of underlying calls made, and the sleeps performed between attempts. -/
def retryFrom {E V : Type} (cfg : RetryConfig) (outcomes : Nat → Except E V) :
    Nat → Nat → CallOutcome E V × Nat × List Nat
  | k, 0 =>
    match outcomes k with
    | Except.ok v => (CallOutcome.success v, 1, [])
    | Except.error e => (CallOutcome.retriesExhausted e, 1, [])
  | k, n + 1 =>
    match outcomes k with
    | Except.ok v => (CallOutcome.success v, 1, [])
    | Except.error _ =>
      let r := retryFrom cfg outcomes (k + 1) n
      (r.1, r.2.1 + 1, retrySleep cfg k :: r.2.2)

/-- `_make_completion_with_retry` followed by `complete`'s re-raising wrapper:
run the tenacity loop from attempt 1 with the decorator's attempt limit. -/
def makeCompletionWithRetry {E V : Type} (cfg : RetryConfig)
    (outcomes : Nat → Except E V) : CallOutcome E V × Nat × List Nat :=
  retryFrom cfg outcomes 1 (stopAttempts cfg - 1)

/-- Claim C2: with the effective attempt limit 3, a sequence of `f` failures
(f < 3) followed by a success on attempt `f + 1` makes exactly `f + 1`
underlying calls and returns the success value verbatim; when attempts 1-3 all
fail, exactly 3 underlying calls are made and the caller observes a
retries-exhausted failure wrapping the third attempt's underlying failure. -/
theorem c2_retry_determinism {E V : Type} (cfg : RetryConfig)
    (outcomes : Nat → Except E V) :
    (∀ (f : Nat) (v : V), f < 3 →
        (∀ i, 1 ≤ i → i ≤ f → ∃ e, outcomes i = Except.error e) →
        outcomes (f + 1) = Except.ok v →
        (makeCompletionWithRetry cfg outcomes).1 = CallOutcome.success v ∧
        (makeCompletionWithRetry cfg outcomes).2.1 = f + 1) ∧
    (∀ e₁ e₂ e₃, outcomes 1 = Except.error e₁ → outcomes 2 = Except.error e₂ →
        outcomes 3 = Except.error e₃ →
        (makeCompletionWithRetry cfg outcomes).1 = CallOutcome.retriesExhausted e₃ ∧
        (makeCompletionWithRetry cfg outcomes).2.1 = 3) := by
  constructor
  · intro f v hf hfail hok
    interval_cases f
    · rw [makeCompletionWithRetry, stopAttempts]
      simp [retryFrom, hok]
    · obtain ⟨e1, he1⟩ := hfail 1 (by omega) (by omega)
      rw [makeCompletionWithRetry, stopAttempts]
      simp [retryFrom, he1, hok]
    · obtain ⟨e1, he1⟩ := hfail 1 (by omega) (by omega)
      obtain ⟨e2, he2⟩ := hfail 2 (by omega) (by omega)
      rw [makeCompletionWithRetry, stopAttempts]
      simp [retryFrom, he1, he2, hok]
  · intro e₁ e₂ e₃ h1 h2 h3
    rw [makeCompletionWithRetry, stopAttempts]
    simp [retryFrom, h1, h2, h3]

theorem c2_retry_determinism_witness :
    ((makeCompletionWithRetry ⟨3, 4, 10⟩
        (fun i => if i < 3 then (Except.error i : Except Nat Nat) else Except.ok 42)).1
      = CallOutcome.success 42 ∧
     (makeCompletionWithRetry ⟨3, 4, 10⟩
        (fun i => if i < 3 then (Except.error i : Except Nat Nat) else Except.ok 42)).2.1
      = 3) ∧
    ((makeCompletionWithRetry ⟨3, 4, 10⟩
        (fun _ => (Except.error 7 : Except Nat Nat))).1
      = CallOutcome.retriesExhausted 7 ∧
     (makeCompletionWithRetry ⟨3, 4, 10⟩
        (fun _ => (Except.error 7 : Except Nat Nat))).2.1
      = 3) :=
  ⟨(c2_retry_determinism ⟨3, 4, 10⟩ _).1 2 42 (by decide)
      (fun i h1 h2 => ⟨i, by
        have : i < 3 := by omega
        simp [this]⟩)
      rfl,
   (c2_retry_determinism ⟨3, 4, 10⟩ _).2 7 7 7 rfl rfl rfl⟩

/-- Claim C6 (divergence witness): the backoff actually slept ignores the
configured wait bounds — the decorator hard-codes
`wait_exponential(multiplier=1, min=4, max=10)`. With configured
`min_retry_wait = 100`, `max_retry_wait = 200`, the delay slept before attempt
2 (i.e. after the failure of attempt 1) is 4, whereas the claimed formula
`min(maxWait, max(minWait, base * 2^(2-2)))` yields 100. For the default
bounds 4 and 10 the claimed formula does match the code. -/
theorem c6_backoff_ignores_configured_bounds :
    retrySleep ⟨3, 100, 200⟩ 1 = 4 ∧
    min 200 (max 100 (1 * 2 ^ 0)) = 100 ∧
    (4 : Nat) ≠ 100 ∧
    (∀ n : Nat, 2 ≤ n → retrySleep ⟨3, 4, 10⟩ (n - 1) = min 10 (max 4 (1 * 2 ^ (n - 2)))) := by
  refine ⟨by decide, by decide, by decide, ?_⟩
  intro n hn
  rw [retrySleep, waitExponential]
  have h1 : n - 1 - 1 = n - 2 := by omega
  rw [h1]
  omega

/-- Claim C7 (divergence witness): the attempt limit the code enforces is the
literal 3 in `stop_after_attempt(3)`, not the configured `max_retries`: with
`max_retries = 1` and every attempt failing, 3 underlying calls are made,
exceeding the claimed bound of at most 1; the same loop also never stops
before 3 calls when configured with `max_retries = 5`. -/
theorem c7_attempt_limit_ignores_config :
    (makeCompletionWithRetry ⟨1, 4, 10⟩
        (fun i => (Except.error i : Except Nat Nat))).2.1 = 3 ∧
    ¬ (makeCompletionWithRetry ⟨1, 4, 10⟩
        (fun i => (Except.error i : Except Nat Nat))).2.1 ≤ 1 ∧
    (makeCompletionWithRetry ⟨5, 4, 10⟩
        (fun i => (Except.error i : Except Nat Nat))).2.1 = 3 := by
  refine ⟨by decide, ?_, by decide⟩
  intro h
  rw [show (makeCompletionWithRetry ⟨1, 4, 10⟩
        (fun i => (Except.error i : Except Nat Nat))).2.1 = 3 from by decide] at h
  omega

theorem c6_backoff_ignores_configured_bounds_witness :
    (2 : Nat) ≤ 2 ∧ retrySleep ⟨3, 4, 10⟩ (2 - 1) = min 10 (max 4 (1 * 2 ^ (2 - 2))) :=
  ⟨by decide, c6_backoff_ignores_configured_bounds.2.2.2 2 (by decide)⟩

/-! ## Parameter merging in `complete` (litellm_caller.py lines 149-154)

`completion_kwargs` is a Python dict built from the dict display with the
named `temperature` first, then the splatted `**kwargs` (later keys override,
keeping the original insertion position), then a conditional
`completion_kwargs['max_tokens'] = max_tokens` when `max_tokens is not None`.
Parameter values are modelled as rationals (enough to express 0.7);
dicts as association lists with Python-dict update semantics. -/

/-- Python dict assignment `d[k] = v`: override in place if the key exists,
else append at the end. -/
def dictSet (d : List (String × Rat)) (k : String) (v : Rat) : List (String × Rat) :=
  if d.any (fun p => p.1 == k) then
    d.map (fun p => if p.1 == k then (k, v) else p)
  else d ++ [(k, v)]

/-- Python dict lookup `d.get(k)`. -/
def dictGet (d : List (String × Rat)) (k : String) : Option Rat :=
  (d.find? (fun p => p.1 == k)).map Prod.snd

/-- The merged outgoing parameter set of `complete`:
the dict display, then the conditional `max_tokens` insertion. -/
def completionKwargs (temperature : Rat) (max_tokens : Option Rat)
    (kwargs : List (String × Rat)) : List (String × Rat) :=
  let d := kwargs.foldl (fun d p => dictSet d p.1 p.2) [("temperature", temperature)]
  match max_tokens with
  | some v => dictSet d "max_tokens" v
  | none => d

theorem find?_map_set_same (k : String) (v : Rat) :
    ∀ d : List (String × Rat),
      (d.map (fun p => if p.1 == k then (k, v) else p)).find? (fun p => p.1 == k)
        = if d.any (fun p => p.1 == k) then some (k, v) else none
  | [] => by simp
  | p :: rest => by
    by_cases hp : p.1 == k
    · simp only [List.map_cons, if_pos hp, List.any_cons, hp, Bool.true_or, if_true]
      exact List.find?_cons_of_pos _ (by simp)
    · have hb : (p.1 == k) = false := by simpa using hp
      simp only [List.map_cons, if_neg hp, List.any_cons, hb, Bool.false_or]
      rw [List.find?_cons_of_neg _ (by simpa using hp)]
      exact find?_map_set_same k v rest

theorem find?_map_set_other (k k' : String) (v : Rat) (hne : k' ≠ k) :
    ∀ d : List (String × Rat),
      (d.map (fun p => if p.1 == k then (k, v) else p)).find? (fun p => p.1 == k')
        = d.find? (fun p => p.1 == k')
  | [] => rfl
  | p :: rest => by
    have hkk : (k == k') = false := by
      simp only [beq_eq_false_iff_ne, ne_eq]
      exact fun h => hne h.symm
    by_cases hp : p.1 == k
    · have hpk : p.1 = k := by simpa using hp
      have h1 : (p.1 == k') = false := by rw [hpk]; exact hkk
      simp only [List.map_cons, if_pos hp]
      rw [List.find?_cons_of_neg _ (by simp [hkk]),
          List.find?_cons_of_neg _ (by simp [h1])]
      exact find?_map_set_other k k' v hne rest
    · simp only [List.map_cons, if_neg hp]
      by_cases hp' : p.1 == k'
      · rw [List.find?_cons, List.find?_cons, hp']
      · have hb' : (p.1 == k') = false := by simpa using hp'
        rw [List.find?_cons, List.find?_cons, hb']
        exact find?_map_set_other k k' v hne rest

theorem any_eq_false_find?_eq_none (k : String) (d : List (String × Rat))
    (h : ¬ d.any (fun p => p.1 == k) = true) :
    d.find? (fun p => p.1 == k) = none := by
  rw [List.find?_eq_none]
  intro p hp hpk
  exact h (List.any_eq_true.mpr ⟨p, hp, hpk⟩)

theorem dictGet_dictSet_same (d : List (String × Rat)) (k : String) (v : Rat) :
    dictGet (dictSet d k v) k = some v := by
  rw [dictSet]
  by_cases h : d.any (fun p => p.1 == k)
  · rw [if_pos h, dictGet, find?_map_set_same, if_pos h]
    rfl
  · rw [if_neg h, dictGet, List.find?_append, any_eq_false_find?_eq_none k d h]
    simp [List.find?_cons]

theorem dictGet_dictSet_other (d : List (String × Rat)) (k k' : String) (v : Rat)
    (hne : k' ≠ k) :
    dictGet (dictSet d k v) k' = dictGet d k' := by
  rw [dictSet]
  by_cases h : d.any (fun p => p.1 == k)
  · rw [if_pos h, dictGet, find?_map_set_other k k' v hne, dictGet]
  · rw [if_neg h, dictGet, List.find?_append, dictGet]
    have h1 : List.find? (fun p => p.1 == k') [(k, v)] = none := by
      rw [List.find?_cons_of_neg]
      · rfl
      · simp only [beq_eq_false_iff_ne, ne_eq, Bool.not_eq_true, beq_eq_false_iff_ne]
        exact fun hkk => hne hkk.symm
    rw [h1]
    cases d.find? (fun p => p.1 == k') <;> rfl

theorem dictGet_eq_none_forall (k : String) (d : List (String × Rat))
    (h : dictGet d k = none) : ∀ p ∈ d, (p.1 == k) = false := by
  rw [dictGet, Option.map_eq_none'] at h
  intro p hp
  have := List.find?_eq_none.mp h p hp
  simpa using this

theorem dictGet_foldl_of_absent (k : String) :
    ∀ (kwargs d₀ : List (String × Rat)),
      (∀ p ∈ kwargs, (p.1 == k) = false) →
      dictGet (kwargs.foldl (fun d p => dictSet d p.1 p.2) d₀) k = dictGet d₀ k
  | [], _, _ => rfl
  | q :: rest, d₀, h => by
    rw [List.foldl_cons,
        dictGet_foldl_of_absent k rest (dictSet d₀ q.1 q.2)
          (fun p hp => h p (List.mem_cons_of_mem q hp))]
    exact dictGet_dictSet_other d₀ q.1 k q.2
      (Ne.symm (by simpa using h q (List.mem_cons_self q rest)))

/-- Claim C8: when the caller omits `max_tokens`, no `max_tokens` key appears
in the outgoing parameter set; when the caller supplies it, that exact value
appears. The open `**kwargs` cannot themselves carry a `max_tokens` entry,
because Python binds that keyword to the named parameter — hence the
hypothesis on `kwargs`. -/
theorem c8_max_tokens_pass_through (temperature : Rat)
    (kwargs : List (String × Rat))
    (hk : dictGet kwargs "max_tokens" = none) :
    dictGet (completionKwargs temperature none kwargs) "max_tokens" = none ∧
    ∀ v : Rat,
      dictGet (completionKwargs temperature (some v) kwargs) "max_tokens" = some v := by
  constructor
  · show dictGet (kwargs.foldl (fun d p => dictSet d p.1 p.2)
        [("temperature", temperature)]) "max_tokens" = none
    rw [dictGet_foldl_of_absent _ _ _ (dictGet_eq_none_forall _ _ hk)]
    rfl
  · intro v
    show dictGet (dictSet (kwargs.foldl (fun d p => dictSet d p.1 p.2)
        [("temperature", temperature)]) "max_tokens" v) "max_tokens" = some v
    exact dictGet_dictSet_same _ _ v

theorem c8_max_tokens_pass_through_witness :
    dictGet [("top_p", (2 : Rat))] "max_tokens" = none ∧
    dictGet (completionKwargs 1 none [("top_p", (2 : Rat))]) "max_tokens" = none ∧
    dictGet (completionKwargs 1 (some 100) [("top_p", (2 : Rat))]) "max_tokens" = some 100 :=
  ⟨by decide,
   (c8_max_tokens_pass_through 1 [("top_p", (2 : Rat))] (by decide)).1,
   (c8_max_tokens_pass_through 1 [("top_p", (2 : Rat))] (by decide)).2 100⟩

theorem completionKwargs_get_temperature (temp : Rat) (mt : Option Rat)
    (kwargs : List (String × Rat)) :
    dictGet (completionKwargs temp mt kwargs) "temperature"
      = dictGet (kwargs.foldl (fun d p => dictSet d p.1 p.2)
          [("temperature", temp)]) "temperature" := by
  cases mt with
  | none => rfl
  | some v =>
    show dictGet (dictSet _ "max_tokens" v) "temperature" = _
    exact dictGet_dictSet_other _ _ _ _ (by decide)

/-- Python keyword-binding errors observable at the call site of `complete`. -/
inductive BindError where
  | multipleValues : String → BindError
deriving Repr, DecidableEq

/-- Python keyword binding for
`complete(self, messages, temperature=0.7, max_tokens=None, **kwargs)` called
with optional explicit `temperature=` and `max_tokens=` keywords plus a
splatted mapping `**extra`: an entry of the mapping that names a declared
parameter binds to that parameter — a TypeError when the keyword was also
given explicitly — and only the remaining entries reach the body as `kwargs`.
Returns the bound temperature (defaulted to 0.7 when absent everywhere), the
bound optional `max_tokens`, and the body's `kwargs`. -/
def bindCallKwargs (namedTemp namedMax : Option Rat)
    (extra : List (String × Rat)) :
    Except BindError (Rat × Option Rat × List (String × Rat)) :=
  if (dictGet extra "temperature").isSome && namedTemp.isSome then
    Except.error (BindError.multipleValues "temperature")
  else if (dictGet extra "max_tokens").isSome && namedMax.isSome then
    Except.error (BindError.multipleValues "max_tokens")
  else
    Except.ok
      ((namedTemp.or (dictGet extra "temperature")).getD (7 / 10),
       namedMax.or (dictGet extra "max_tokens"),
       extra.filter (fun p => !(p.1 == "temperature") && !(p.1 == "max_tokens")))

/-- A `complete` call observed end to end: Python keyword binding at the call
site, then the body's parameter merge. -/
def callComplete (namedTemp namedMax : Option Rat)
    (extra : List (String × Rat)) :
    Except BindError (List (String × Rat)) :=
  (bindCallKwargs namedTemp namedMax extra).map
    (fun b => completionKwargs b.1 b.2.1 b.2.2)

theorem exceptMap_eq_ok {E A B : Type} (f : A → B) (x : Except E A) (b : B) :
    x.map f = Except.ok b ↔ ∃ a, x = Except.ok a ∧ f a = b := by
  cases x <;> simp [Except.map]

/-- The body kwargs produced by binding never carry the `temperature` key. -/
theorem bound_kwargs_no_temperature (extra : List (String × Rat)) :
    ∀ p ∈ extra.filter (fun p => !(p.1 == "temperature") && !(p.1 == "max_tokens")),
      (p.1 == "temperature") = false := by
  intro p hp
  have h2 := (List.mem_filter.mp hp).2
  rw [Bool.and_eq_true] at h2
  simpa using h2.1

/-- For every call the binding accepts, the merged outgoing set carries the
bound temperature: the named argument if given, else the mapping entry, else
the default 0.7. -/
theorem callComplete_temperature (tOpt mtOpt : Option Rat)
    (extra : List (String × Rat)) (d : List (String × Rat))
    (h : callComplete tOpt mtOpt extra = Except.ok d) :
    dictGet d "temperature"
      = some ((tOpt.or (dictGet extra "temperature")).getD (7 / 10)) := by
  unfold callComplete at h
  rw [exceptMap_eq_ok] at h
  obtain ⟨b, hb, hfb⟩ := h
  unfold bindCallKwargs at hb
  by_cases h1 : (dictGet extra "temperature").isSome && tOpt.isSome
  · rw [if_pos h1] at hb
    simp at hb
  · rw [if_neg h1] at hb
    by_cases h2 : (dictGet extra "max_tokens").isSome && mtOpt.isSome
    · rw [if_pos h2] at hb
      simp at hb
    · rw [if_neg h2] at hb
      simp only [Except.ok.injEq] at hb
      subst hb
      subst hfb
      rw [completionKwargs_get_temperature,
          dictGet_foldl_of_absent _ _ _ (bound_kwargs_no_temperature extra)]
      rfl

/-- Claim C10 counterexample: the claimed silent override cannot occur. At the
very input where the open extra-options mapping would have to override the
named `temperature` argument, Python keyword binding raises a TypeError — no
merged parameter set is produced at all, so in particular none in which the
mapping's value has replaced the named one. -/
theorem c10_silent_override_counterexample :
    callComplete (some 2) none [("temperature", (1 : Rat))]
      = Except.error (BindError.multipleValues "temperature") := rfl

/-- Claim C10 (amended): unlike `max_tokens`, the `temperature` key is always
present in the outgoing parameter set of every `complete` call the program
accepts — when the caller omits it everywhere, the default 0.7 is sent; a
`temperature` entry supplied via the open extra-options mapping binds to the
named parameter (so it supplies the sent value when the named argument is
absent); and supplying temperature both by name and through the mapping
raises a TypeError at the call site instead of silently overriding. -/
theorem c10_temperature_binding (mtOpt : Option Rat)
    (extra : List (String × Rat)) :
    (∀ d, callComplete none mtOpt extra = Except.ok d →
        dictGet extra "temperature" = none →
        dictGet d "temperature" = some (7 / 10)) ∧
    (∀ d (v : Rat), callComplete none mtOpt extra = Except.ok d →
        dictGet extra "temperature" = some v →
        dictGet d "temperature" = some v) ∧
    (∀ (t v : Rat), dictGet extra "temperature" = some v →
        callComplete (some t) mtOpt extra
          = Except.error (BindError.multipleValues "temperature")) ∧
    (∀ (tOpt : Option Rat) (d : List (String × Rat)),
        callComplete tOpt mtOpt extra = Except.ok d →
        (dictGet d "temperature").isSome = true) := by
  refine ⟨?_, ?_, ?_, ?_⟩
  · intro d hd hnone
    rw [callComplete_temperature none mtOpt extra d hd, hnone]
    rfl
  · intro d v hd hv
    rw [callComplete_temperature none mtOpt extra d hd, hv]
    rfl
  · intro t v hv
    unfold callComplete bindCallKwargs
    rw [if_pos (by rw [hv]; rfl)]
    rfl
  · intro tOpt d hd
    rw [callComplete_temperature tOpt mtOpt extra d hd]
    rfl

theorem c10_temperature_binding_witness :
    (callComplete none none ([] : List (String × Rat))
        = Except.ok [("temperature", (7 : Rat) / 10)] ∧
      dictGet ([] : List (String × Rat)) "temperature" = none ∧
      dictGet [("temperature", (7 : Rat) / 10)] "temperature" = some (7 / 10)) ∧
    (callComplete none none [("temperature", (1 : Rat))]
        = Except.ok [("temperature", (1 : Rat))] ∧
      dictGet [("temperature", (1 : Rat))] "temperature" = some 1 ∧
      dictGet [("temperature", (1 : Rat))] "temperature" = some 1) ∧
    (callComplete (some 2) none [("temperature", (1 : Rat))]
        = Except.error (BindError.multipleValues "temperature")) ∧
    (dictGet [("temperature", (7 : Rat) / 10)] "temperature").isSome = true :=
  ⟨⟨rfl, rfl,
    (c10_temperature_binding none ([] : List (String × Rat))).1
      [("temperature", (7 : Rat) / 10)] rfl rfl⟩,
   ⟨rfl, rfl,
    (c10_temperature_binding none [("temperature", (1 : Rat))]).2.1
      [("temperature", (1 : Rat))] 1 rfl rfl⟩,
   (c10_temperature_binding none [("temperature", (1 : Rat))]).2.2.1 2 1 rfl,
   (c10_temperature_binding none ([] : List (String × Rat))).2.2.2 none
     [("temperature", (7 : Rat) / 10)] rfl⟩

/-! ## Admission-before-call ordering (`_rate_limited_completion` inside the
retry loop)

`_rate_limited_completion` first blocks on `wait_if_needed` (a polling loop of
`try_acquire` with a short sleep between polls) and only then performs the
external `completion` call; the tenacity loop re-enters it on every retry.
A run is modelled as an event trace. The polling loop reads one clock instant
per `try_acquire` poll; `none` means the supplied clock was exhausted while
still waiting (the real loop would still be polling). -/

inductive Ev where
  | acquireDenied : Int → Ev
  | acquireGranted : Int → Ev
  | externalCall : Nat → Ev
deriving Repr, DecidableEq

def isCall : Ev → Bool
  | Ev.externalCall _ => true
  | _ => false

def isGrant : Ev → Bool
  | Ev.acquireGranted _ => true
  | _ => false

/-- `wait_if_needed`: poll `try_acquire` at successive clock instants until one
is granted, recording one event per poll. Returns the events, the limiter
state after the granted poll, and the unused clock. -/
def wait_if_needed (l : SlidingWindowRateLimiter) :
    List Int → Option (List Ev × SlidingWindowRateLimiter × List Int)
  | [] => none
  | t :: rest =>
    if (l.try_acquire t).1 then
      some ([Ev.acquireGranted t], (l.try_acquire t).2, rest)
    else
      (wait_if_needed (l.try_acquire t).2 rest).map
        (fun r => (Ev.acquireDenied t :: r.1, r.2.1, r.2.2))

/-- The full retry loop of `complete` at the event level: attempt number `k`
blocks on the limiter, performs the external call, and on failure re-enters
with attempt `k + 1` while further attempts remain (`fuel` is the number of
attempts allowed after the current one; when it is exhausted the final
attempt's failure is surfaced, its call having been made). -/
def completeTrace {E V : Type} (outcomes : Nat → Except E V) :
    SlidingWindowRateLimiter → List Int → Nat → Nat →
      Option (List Ev × SlidingWindowRateLimiter × List Int)
  | l, clock, k, 0 =>
    (wait_if_needed l clock).map
      (fun r => (r.1 ++ [Ev.externalCall k], r.2.1, r.2.2))
  | l, clock, k, n + 1 =>
    (wait_if_needed l clock).bind
      (fun r =>
        if (outcomes k).isOk then
          some (r.1 ++ [Ev.externalCall k], r.2.1, r.2.2)
        else
          (completeTrace outcomes r.2.1 r.2.2 (k + 1) n).map
            (fun r₂ => ((r.1 ++ [Ev.externalCall k]) ++ r₂.1, r₂.2.1, r₂.2.2)))

/-- Scan of a trace checking that every `externalCall` event is immediately
preceded by an `acquireGranted` event; `prev` is the event right before the
remaining trace, if any. -/
def goodFrom : Option Ev → List Ev → Bool
  | _, [] => true
  | prev, e :: rest =>
    (!(isCall e) || (match prev with
                     | some p => isGrant p
                     | none => false)) && goodFrom (some e) rest

/-- Every external call in the trace is immediately preceded by a successful
admission. -/
def callsAdmitted (evs : List Ev) : Bool := goodFrom none evs

theorem goodFrom_cons (prev : Option Ev) (e : Ev) (rest : List Ev) :
    goodFrom prev (e :: rest)
      = ((!(isCall e) || (match prev with
                          | some p => isGrant p
                          | none => false)) && goodFrom (some e) rest) := rfl

theorem wait_if_needed_cons (l : SlidingWindowRateLimiter) (t : Int) (rest : List Int) :
    wait_if_needed l (t :: rest)
      = if (l.try_acquire t).1 then
          some ([Ev.acquireGranted t], (l.try_acquire t).2, rest)
        else
          (wait_if_needed (l.try_acquire t).2 rest).map
            (fun r => (Ev.acquireDenied t :: r.1, r.2.1, r.2.2)) := rfl

theorem completeTrace_zero {E V : Type} (outcomes : Nat → Except E V)
    (l : SlidingWindowRateLimiter) (clock : List Int) (k : Nat) :
    completeTrace outcomes l clock k 0
      = (wait_if_needed l clock).map
          (fun r => (r.1 ++ [Ev.externalCall k], r.2.1, r.2.2)) := rfl

theorem completeTrace_succ {E V : Type} (outcomes : Nat → Except E V)
    (l : SlidingWindowRateLimiter) (clock : List Int) (k n : Nat) :
    completeTrace outcomes l clock k (n + 1)
      = (wait_if_needed l clock).bind
          (fun r =>
            if (outcomes k).isOk then
              some (r.1 ++ [Ev.externalCall k], r.2.1, r.2.2)
            else
              (completeTrace outcomes r.2.1 r.2.2 (k + 1) n).map
                (fun r₂ => ((r.1 ++ [Ev.externalCall k]) ++ r₂.1, r₂.2.1, r₂.2.2))) := rfl

/-- A successful `wait_if_needed` trace is a run of denied polls followed by
exactly one granted poll. -/
theorem wait_if_needed_shape :
    ∀ (clock : List Int) (l : SlidingWindowRateLimiter) (evs : List Ev)
      (l' : SlidingWindowRateLimiter) (c' : List Int),
      wait_if_needed l clock = some (evs, l', c') →
      ∃ ds t, evs = ds ++ [Ev.acquireGranted t] ∧ ∀ e ∈ ds, ∃ u, e = Ev.acquireDenied u
  | [], _, _, _, _, h => by simp [wait_if_needed] at h
  | t :: rest, l, evs, l', c', h => by
    rw [wait_if_needed_cons] at h
    by_cases hr : (l.try_acquire t).1
    · rw [if_pos hr] at h
      simp only [Option.some.injEq, Prod.mk.injEq] at h
      refine ⟨[], t, ?_, by simp⟩
      rw [← h.1]
      rfl
    · rw [if_neg hr, Option.map_eq_some'] at h
      obtain ⟨r, hw, hr1⟩ := h
      obtain ⟨evs₀, l₀, rest₀⟩ := r
      simp only [Prod.mk.injEq] at hr1
      obtain ⟨ds, u, hevs₀, hds⟩ :=
        wait_if_needed_shape rest (l.try_acquire t).2 evs₀ l₀ rest₀ hw
      refine ⟨Ev.acquireDenied t :: ds, u, ?_, ?_⟩
      · rw [← hr1.1, hevs₀]
        rfl
      · intro e he
        rcases List.mem_cons.mp he with h1 | h1
        · exact ⟨t, h1⟩
        · exact hds e h1

/-- Scanning a block "denied polls, then a grant, then the external call"
succeeds for any preceding event and continues with the call as the new
previous event. -/
theorem goodFrom_block (t : Int) (k : Nat) (tail : List Ev) :
    ∀ (ds : List Ev) (prev : Option Ev),
      (∀ e ∈ ds, ∃ u, e = Ev.acquireDenied u) →
      goodFrom prev (ds ++ (Ev.acquireGranted t :: Ev.externalCall k :: tail))
        = goodFrom (some (Ev.externalCall k)) tail
  | [], prev, _ => by
    rw [List.nil_append, goodFrom_cons, goodFrom_cons]
    simp [isCall, isGrant]
  | d :: ds, prev, h => by
    obtain ⟨u, hu⟩ := h d (List.mem_cons_self d ds)
    have hds : ∀ e ∈ ds, ∃ u, e = Ev.acquireDenied u :=
      fun e he => h e (List.mem_cons_of_mem d he)
    subst hu
    rw [List.cons_append, goodFrom_cons]
    rw [goodFrom_block t k tail ds (some (Ev.acquireDenied u)) hds]
    simp [isCall]

/-- A trace accepted with no preceding event is accepted after any preceding
event: the previous event only matters when the first event is a call, and a
trace accepted from `none` cannot start with a call. -/
theorem goodFrom_of_goodFrom_none (evs : List Ev) (prev : Option Ev)
    (h : goodFrom none evs = true) : goodFrom prev evs = true := by
  cases evs with
  | nil => rfl
  | cons e rest =>
    rw [goodFrom_cons] at h ⊢
    rw [Bool.and_eq_true] at h ⊢
    refine ⟨?_, h.2⟩
    have h1 := h.1
    simp only [Bool.or_false] at h1
    rw [h1]
    rw [Bool.true_or]

/-- Every trace produced by the retry loop admits each external call: the
event immediately before each `externalCall` is an `acquireGranted`. -/
theorem completeTrace_callsAdmitted {E V : Type} (outcomes : Nat → Except E V) :
    ∀ (fuel : Nat) (l : SlidingWindowRateLimiter) (clock : List Int) (k : Nat)
      (evs : List Ev) (l' : SlidingWindowRateLimiter) (c' : List Int),
      completeTrace outcomes l clock k fuel = some (evs, l', c') →
      callsAdmitted evs = true := by
  intro fuel
  induction fuel with
  | zero =>
    intro l clock k evs l' c' h
    rw [completeTrace_zero, Option.map_eq_some'] at h
    obtain ⟨r, hwn, hr1⟩ := h
    obtain ⟨evs₀, l₀, clock₀⟩ := r
    simp only [Prod.mk.injEq] at hr1
    obtain ⟨ds, t, hevs₀, hds⟩ := wait_if_needed_shape clock l evs₀ l₀ clock₀ hwn
    rw [← hr1.1, callsAdmitted, hevs₀,
        show (ds ++ [Ev.acquireGranted t]) ++ [Ev.externalCall k]
          = ds ++ (Ev.acquireGranted t :: Ev.externalCall k :: []) from by simp,
        goodFrom_block t k [] ds none hds]
    rfl
  | succ n ih =>
    intro l clock k evs l' c' h
    rw [completeTrace_succ, Option.bind_eq_some] at h
    obtain ⟨r, hwn, hr1⟩ := h
    obtain ⟨evs₀, l₀, clock₀⟩ := r
    obtain ⟨ds, t, hevs₀, hds⟩ := wait_if_needed_shape clock l evs₀ l₀ clock₀ hwn
    by_cases hok : (outcomes k).isOk
    · rw [if_pos hok] at hr1
      simp only [Option.some.injEq, Prod.mk.injEq] at hr1
      rw [← hr1.1, callsAdmitted, hevs₀,
          show (ds ++ [Ev.acquireGranted t]) ++ [Ev.externalCall k]
            = ds ++ (Ev.acquireGranted t :: Ev.externalCall k :: []) from by simp,
          goodFrom_block t k [] ds none hds]
      rfl
    · rw [if_neg hok, Option.map_eq_some'] at hr1
      obtain ⟨r₂, hrec, hr2⟩ := hr1
      obtain ⟨evs₂, l₂, c₂⟩ := r₂
      simp only [Prod.mk.injEq] at hr2
      have hgood₂ : goodFrom none evs₂ = true := by
        rw [← callsAdmitted]
        exact ih l₀ clock₀ (k + 1) evs₂ l₂ c₂ hrec
      rw [← hr2.1, callsAdmitted, hevs₀,
          show ((ds ++ [Ev.acquireGranted t]) ++ [Ev.externalCall k]) ++ evs₂
            = ds ++ (Ev.acquireGranted t :: Ev.externalCall k :: evs₂) from by simp,
          goodFrom_block t k evs₂ ds none hds]
      exact goodFrom_of_goodFrom_none evs₂ _ hgood₂

/-- Claim C4: every underlying external completion call made by the retry
loop, including every retry attempt, is immediately preceded in the event
trace by a successful rate-limiter admission obtained for that attempt — no
attempt performs the external call without first being granted an admission. -/
theorem c4_admission_precedes_every_call {E V : Type} (outcomes : Nat → Except E V)
    (fuel : Nat) (l : SlidingWindowRateLimiter) (clock : List Int) (k : Nat)
    (evs : List Ev) (l' : SlidingWindowRateLimiter) (c' : List Int)
    (h : completeTrace outcomes l clock k fuel = some (evs, l', c')) :
    callsAdmitted evs = true :=
  completeTrace_callsAdmitted outcomes fuel l clock k evs l' c' h

theorem c4_admission_precedes_every_call_witness :
    completeTrace (fun i => if i = 1 then (Except.error 0 : Except Nat Nat) else Except.ok 0)
        ⟨1, 60, []⟩ [0, 5, 70] 1 2
      = some ([Ev.acquireGranted 0, Ev.externalCall 1,
               Ev.acquireDenied 5, Ev.acquireGranted 70, Ev.externalCall 2],
              ⟨1, 60, [70]⟩, []) ∧
    callsAdmitted [Ev.acquireGranted 0, Ev.externalCall 1,
                   Ev.acquireDenied 5, Ev.acquireGranted 70, Ev.externalCall 2] = true :=
  ⟨by decide,
   c4_admission_precedes_every_call
     (fun i => if i = 1 then (Except.error 0 : Except Nat Nat) else Except.ok 0)
     2 ⟨1, 60, []⟩ [0, 5, 70] 1 _ ⟨1, 60, [70]⟩ [] (by decide)⟩

end LitellmCaller
